import Mathlib

/-!
# Verification of `elasticsearch-common`

A shallow embedding of the `elasticsearch_query` / `elasticsearch_query_derive`
crates (and their older duplicates `query` / `query_derive`), together with
proofs of the specified properties of clause extraction and serialization.

Serde serialization is modelled by an explicit JSON value type whose objects
are ordered association lists: the list order is the order in which the Rust
code calls `serialize_entry`.  The fallibility of a serde `Serializer`
(`Result<S::Ok, S::Error>` and the `?` operator) is modelled with `Except`.

`BigDecimal` (from the `bigdecimal` dependency) is modelled as an unscaled
integer together with a base-ten scale, its `Display` implementation (which
serde's `collect_str` uses for serialization) and its `FromStr` parser are
embedded as `BigDecimal.toStr` and `BigDecimal.fromStr`.
-/

namespace ElasticsearchCommon

/-- A JSON value.  Objects are ordered association lists: entry order is the
order in which serde `serialize_entry` calls were made. -/
inductive Json where
  | str : String → Json
  | bool : Bool → Json
  | arr : List Json → Json
  | obj : List (String × Json) → Json

/-! ## The `BigDecimal` model (from the `bigdecimal` dependency)

A `BigDecimal` is `intVal * 10 ^ (-scale)` with `intVal : BigInt` and
`scale : i64`, modelled with unbounded `Int` for both. -/

/-- `bigdecimal::BigDecimal`: the value `intVal * 10 ^ (-scale)`. -/
structure BigDecimal where
  intVal : Int
  scale : Int
deriving Repr, DecidableEq

/-- The exact rational value denoted by a `BigDecimal`. -/
def BigDecimal.val (d : BigDecimal) : ℚ :=
  (d.intVal : ℚ) * (10 : ℚ) ^ (-d.scale)

/-- `BigDecimal::from_i32` (always succeeds): integer with scale zero. -/
def BigDecimal.fromInt (n : Int) : BigDecimal := ⟨n, 0⟩

/-- The character for a decimal digit value (`0 ↦ '0'`, ..., `9 ↦ '9'`). -/
def digitChar (d : Nat) : Char := Char.ofNat (48 + d)

/-- Big-endian base-ten digit values of a natural number; `[0]` for zero,
as produced by `BigInt::to_str_radix(10)` on the absolute value. -/
def natDigitsBE (n : Nat) : List Nat :=
  if n = 0 then [0] else (Nat.digits 10 n).reverse

/-- The decimal digit characters of a natural number, most significant first
(`num_bigint`'s `to_string` on the absolute value). -/
def natToDigitString (n : Nat) : List Char :=
  (natDigitsBE n).map digitChar

/-- `Display for BigDecimal` (bigdecimal crate), producing the character list
of the exact decimal text.  Mirrors the source: take the decimal digits of the
absolute unscaled integer; if `scale` is at least the digit count the number is
entirely behind the decimal point (`0.000ddd`), if the point falls past the
digits (negative scale) zeros are appended and there is no fractional part,
otherwise the digit string is split at the point; a minus sign is prepended
for a negative unscaled integer. -/
def BigDecimal.toChars (d : BigDecimal) : List Char :=
  let absInt := natToDigitString d.intVal.natAbs
  let complete :=
    if (absInt.length : Int) ≤ d.scale then
      '0' :: '.' :: (List.replicate (d.scale - (absInt.length : Int)).toNat '0' ++ absInt)
    else if (absInt.length : Int) < (absInt.length : Int) - d.scale then
      absInt ++ List.replicate (((absInt.length : Int) - d.scale).toNat - absInt.length) '0'
    else if absInt.drop ((absInt.length : Int) - d.scale).toNat = [] then
      absInt.take ((absInt.length : Int) - d.scale).toNat
    else
      absInt.take ((absInt.length : Int) - d.scale).toNat
        ++ '.' :: absInt.drop ((absInt.length : Int) - d.scale).toNat
  if d.intVal < 0 then '-' :: complete else complete

/-- The `Display` text of a `BigDecimal`; serde's `collect_str` serializes a
`BigDecimal` as a JSON string holding exactly this text. -/
def BigDecimal.toStr (d : BigDecimal) : String := String.mk d.toChars

/-- Is the character a decimal digit (`'0'`..`'9'`)? -/
def isDigitChar (c : Char) : Bool := 48 ≤ c.toNat && c.toNat ≤ 57

/-- The digit value of a decimal digit character. -/
def charVal (c : Char) : Nat := c.toNat - 48

/-- Parse a nonempty all-digit character list as a natural number
(base-ten positional value). -/
def parseNat? (cs : List Char) : Option Nat :=
  if cs ≠ [] ∧ cs.all isDigitChar then
    some (Nat.ofDigits 10 ((cs.map charVal).reverse))
  else none

/-- Parse an optionally signed decimal integer
(`num_bigint`'s `from_str_radix` at radix ten, without exponent). -/
def parseInt? (cs : List Char) : Option Int :=
  if cs.head? = some '-' then (parseNat? cs.tail).map (fun n => -(n : Int))
  else if cs.head? = some '+' then (parseNat? cs.tail).map (fun n => (n : Int))
  else (parseNat? cs).map (fun n => (n : Int))

/-- Index of the first `'.'` in a character list (Rust `str::find('.')`). -/
def findDotIdx : List Char → Option Nat
  | [] => none
  | c :: cs => if c = '.' then some 0 else (findDotIdx cs).map (· + 1)

/-- `FromStr for BigDecimal` (bigdecimal crate, exponent-free fragment) on a
character list: find the decimal point, remove it, parse the remaining signed
digits as the unscaled integer, and take the fractional digit count as the
scale. -/
def fromChars (cs : List Char) : Option BigDecimal :=
  match findDotIdx cs with
  | none => (parseInt? cs).map fun n => ⟨n, 0⟩
  | some loc =>
      (parseInt? (cs.take loc ++ cs.drop (loc + 1))).map
        fun n => ⟨n, ((cs.length - (loc + 1) : Nat) : Int)⟩

/-- `BigDecimal::from_str` on a string. -/
def BigDecimal.fromStr (s : String) : Option BigDecimal := fromChars s.toList

/-! ## The clause model (`elasticsearch_query/src/dsl.rs`) -/

/-- `enum QueryClause`: one Elasticsearch leaf query clause. -/
inductive QueryClause where
  | Match (field : String) (search_val : String)
  | Range (field : String) (gte : BigDecimal) (lte : BigDecimal)
  | Terms (field : String) (search_val : List String)
  | Prefix (field : String) (search_val : String) (is_case_insensitive : Bool)
deriving Repr, DecidableEq

/-- `enum SortType`. -/
inductive SortType where
  | Asc
  | Desc
deriving Repr, DecidableEq

/-- `impl fmt::Display for SortType`. -/
def SortType.toStr : SortType → String
  | SortType.Asc => "asc"
  | SortType.Desc => "desc"

/-- `struct QuerySort`. -/
structure QuerySort where
  field_name : String
  ordering : SortType
deriving Repr, DecidableEq

/-! ## Serde serialization plumbing

A serde map serializer in progress is the ordered list of entries emitted so
far; every step returns `Except` to mirror `Result<_, S::Error>` and the `?`
operator in the source.  For the JSON value serializer these steps never
fail. -/

/-- The state of an in-progress serde map: entries emitted so far, in order. -/
abbrev SerializeMap : Type := List (String × Json)

/-- `serializer.serialize_map(len)`: start an empty map. -/
def serializeMap (_len : Option Nat) : Except String SerializeMap :=
  Except.ok []

/-- `map.serialize_entry(key, value)`: append one entry. -/
def SerializeMap.serializeEntry (m : SerializeMap) (k : String) (v : Json) :
    Except String SerializeMap :=
  Except.ok (m ++ [(k, v)])

/-- `map.end()`: finish the map, producing the JSON object. -/
def SerializeMap.endMap (m : SerializeMap) : Except String Json :=
  Except.ok (Json.obj m)

/-- serde serialization of a `BigDecimal`: `collect_str` of its `Display`
text, i.e. a JSON string holding the exact decimal representation. -/
def BigDecimal.serialize (d : BigDecimal) : Json := Json.str d.toStr

/-- `impl Serialize for QuerySort`: a one-entry map from the field name to the
`Display` text of the ordering. -/
def QuerySort.serialize (s : QuerySort) : Except String Json := do
  let m ← serializeMap (some 1)
  let m ← m.serializeEntry s.field_name (Json.str s.ordering.toStr)
  m.endMap

/-- `impl Serialize for InnerRange`: `{"gte": ..., "lte": ...}`, with `gte`
emitted first. -/
def InnerRange.serialize (gte lte : BigDecimal) : Except String Json := do
  let m ← serializeMap (some 2)
  let m ← m.serializeEntry "gte" gte.serialize
  let m ← m.serializeEntry "lte" lte.serialize
  m.endMap

/-- `impl Serialize for InnerPrefix`: `{"value": ..., "case_insensitive": ...}`,
with `value` emitted first. -/
def InnerPrefix.serialize (search_val : String) (is_case_insensitive : Bool) :
    Except String Json := do
  let m ← serializeMap (some 2)
  let m ← m.serializeEntry "value" (Json.str search_val)
  let m ← m.serializeEntry "case_insensitive" (Json.bool is_case_insensitive)
  m.endMap

/-- `impl Serialize for InnerQueryClause`: a one-entry map from the field path
to the variant's inner body. -/
def InnerQueryClause.serialize (q : QueryClause) : Except String Json := do
  match q with
  | QueryClause.Match field search_val => do
      let m ← serializeMap (some 1)
      let m ← m.serializeEntry field (Json.str search_val)
      m.endMap
  | QueryClause.Range field gte lte => do
      let m ← serializeMap (some 1)
      let inner ← InnerRange.serialize gte lte
      let m ← m.serializeEntry field inner
      m.endMap
  | QueryClause.Terms field search_val => do
      let m ← serializeMap (some 1)
      let m ← m.serializeEntry field (Json.arr (search_val.map Json.str))
      m.endMap
  | QueryClause.Prefix field search_val is_case_insensitive => do
      let m ← serializeMap (some 1)
      let inner ← InnerPrefix.serialize search_val is_case_insensitive
      let m ← m.serializeEntry field inner
      m.endMap

/-- `impl Serialize for QueryClause`: a one-entry map from the variant's tag
key (`"match"` / `"range"` / `"terms"` / `"prefix"`) to the inner clause. -/
def QueryClause.serialize (q : QueryClause) : Except String Json := do
  let m ← serializeMap (some 1)
  let inner ← InnerQueryClause.serialize q
  let m ←
    match q with
    | QueryClause.Match _ _ => m.serializeEntry "match" inner
    | QueryClause.Range _ _ _ => m.serializeEntry "range" inner
    | QueryClause.Terms _ _ => m.serializeEntry "terms" inner
    | QueryClause.Prefix _ _ _ => m.serializeEntry "prefix" inner
  m.endMap

/-! ## The bounded-range criteria value (`dsl.rs` tests module) -/

/-- `i32::MIN`. -/
def i32MIN : Int := -2147483648

/-- `i32::MAX`. -/
def i32MAX : Int := 2147483647

/-- `struct Range { lower_bound: Option<i32>, upper_bound: Option<i32> }`. -/
structure Range where
  lower_bound : Option Int
  upper_bound : Option Int
deriving Repr, DecidableEq

/-- `impl ToClause for Range`: substitute `i32::MIN` / `i32::MAX` sentinels
for absent bounds and always emit a `Range` clause. -/
def Range.to_clause (r : Range) (field : String) : QueryClause :=
  let gte :=
    match r.lower_bound with
    | some lower_bound => BigDecimal.fromInt lower_bound
    | none => BigDecimal.fromInt i32MIN
  let lte :=
    match r.upper_bound with
    | some upper_bound => BigDecimal.fromInt upper_bound
    | none => BigDecimal.fromInt i32MAX
  QueryClause.Range field gte lte

/-! ## The derive-macro extraction (`elasticsearch_query_derive/src/lib.rs`
and the older `query_derive/src/lib.rs`)

A criteria record is a declaration-ordered list of fields; each field may
carry a `search_field("path")` attribute and holds an `Option` value of a
type whose `ToClause` capability is the `toClause` parameter. -/

/-- One declared field of a criteria struct: its optional `search_field`
attribute argument and its optional value. -/
structure CriteriaField (α : Type) where
  searchField : Option String
  value : Option α
deriving Repr

/-- The `to_clauses` body generated by `elasticsearch_query_derive`'s
`impl_to_clauses`: start from an empty vector and, for each declared field
that carries a `search_field` attribute, push
`criteria_value.to_clause(path.into())` when the field's value is
`Some(ref criteria_value)`. -/
def to_clauses {α : Type} (toClause : α → String → QueryClause)
    (fields : List (CriteriaField α)) : List QueryClause :=
  fields.foldl
    (fun clauses f =>
      match f.searchField, f.value with
      | some path, some criteria_value => clauses ++ [toClause criteria_value path]
      | _, _ => clauses)
    []

/-- The `to_clauses` body generated by the older `query_derive` macro, whose
only textual difference is binding the present value by move
(`Some(criteria_value)`) instead of by reference (`Some(ref criteria_value)`);
for a `Copy` value type both read the same value. -/
def to_clauses_old {α : Type} (toClause : α → String → QueryClause)
    (fields : List (CriteriaField α)) : List QueryClause :=
  fields.foldl
    (fun clauses f =>
      match f.searchField, f.value with
      | some path, some criteria_value => clauses ++ [toClause criteria_value path]
      | _, _ => clauses)
    []

/-! ## Decimal digit facts, towards the round-trip property -/

theorem digitChar_isDigit {d : Nat} (h : d < 10) : isDigitChar (digitChar d) = true := by
  interval_cases d <;> decide

theorem charVal_digitChar {d : Nat} (h : d < 10) : charVal (digitChar d) = d := by
  interval_cases d <;> decide

theorem digitChar_ne_dot {d : Nat} (h : d < 10) : digitChar d ≠ '.' := by
  interval_cases d <;> decide

theorem digitChar_ne_dash {d : Nat} (h : d < 10) : digitChar d ≠ '-' := by
  interval_cases d <;> decide

theorem digitChar_ne_plus {d : Nat} (h : d < 10) : digitChar d ≠ '+' := by
  interval_cases d <;> decide

theorem natDigitsBE_ne_nil (n : Nat) : natDigitsBE n ≠ [] := by
  rw [natDigitsBE]
  split
  · simp
  · simpa using Nat.digits_ne_nil_iff_ne_zero.mpr (by assumption)

theorem natDigitsBE_lt (n : Nat) : ∀ d ∈ natDigitsBE n, d < 10 := by
  intro d hd
  rw [natDigitsBE] at hd
  split at hd
  · simp at hd; omega
  · exact Nat.digits_lt_base (by norm_num) (List.mem_reverse.mp hd)

theorem ofDigits_natDigitsBE (n : Nat) :
    Nat.ofDigits 10 (natDigitsBE n).reverse = n := by
  rw [natDigitsBE]
  split
  · simp [Nat.ofDigits]; omega
  · rw [List.reverse_reverse, Nat.ofDigits_digits]

theorem ofDigits_replicate_zero (b k : Nat) :
    Nat.ofDigits b (List.replicate k 0) = 0 := by
  induction k with
  | zero => rfl
  | succ k ih => rw [List.replicate_succ, Nat.ofDigits_cons, ih]; simp

theorem ofDigits_append_zeros (k : Nat) (L : List Nat) :
    Nat.ofDigits 10 (L ++ List.replicate k 0) = Nat.ofDigits 10 L := by
  rw [Nat.ofDigits_append, ofDigits_replicate_zero]; simp

theorem ofDigits_zeros_append (k : Nat) (L : List Nat) :
    Nat.ofDigits 10 (List.replicate k 0 ++ L) = 10 ^ k * Nat.ofDigits 10 L := by
  rw [Nat.ofDigits_append, ofDigits_replicate_zero, List.length_replicate]; simp

theorem parseNat?_map_digitChar (L : List Nat) (hne : L ≠ [])
    (hlt : ∀ d ∈ L, d < 10) :
    parseNat? (L.map digitChar) = some (Nat.ofDigits 10 L.reverse) := by
  have hall : (L.map digitChar).all isDigitChar = true := by
    rw [List.all_eq_true]
    intro c hc
    rw [List.mem_map] at hc
    obtain ⟨d, hd, rfl⟩ := hc
    exact digitChar_isDigit (hlt d hd)
  have hmap : (L.map digitChar).map charVal = L := by
    rw [List.map_map]
    exact List.map_congr_left (fun d hd => charVal_digitChar (hlt d hd)) |>.trans (List.map_id L)
  rw [parseNat?, if_pos ⟨by simpa using hne, hall⟩, hmap]

theorem parseInt?_digits (L : List Nat) (hne : L ≠ []) (hlt : ∀ d ∈ L, d < 10) :
    parseInt? (L.map digitChar) = some ((Nat.ofDigits 10 L.reverse : Nat) : Int) := by
  obtain ⟨d, L', rfl⟩ := List.exists_cons_of_ne_nil hne
  have hd : d < 10 := hlt d (List.mem_cons_self d L')
  rw [parseInt?]
  rw [if_neg (by simp [digitChar_ne_dash hd]), if_neg (by simp [digitChar_ne_plus hd]),
    parseNat?_map_digitChar _ hne hlt]
  rfl

theorem parseInt?_neg_digits (L : List Nat) (hne : L ≠ [])
    (hlt : ∀ d ∈ L, d < 10) :
    parseInt? ('-' :: L.map digitChar)
      = some (-((Nat.ofDigits 10 L.reverse : Nat) : Int)) := by
  rw [parseInt?]
  rw [if_pos (by simp), List.tail_cons, parseNat?_map_digitChar _ hne hlt]
  rfl

theorem findDotIdx_no_dot (cs : List Char) (h : ∀ c ∈ cs, c ≠ '.') :
    findDotIdx cs = none := by
  induction cs with
  | nil => rfl
  | cons c cs ih =>
    rw [findDotIdx, if_neg (h c (List.mem_cons_self c cs)),
      ih (fun c hc => h c (List.mem_cons_of_mem _ hc))]
    rfl

theorem findDotIdx_append_dot (l1 l2 : List Char) (h : ∀ c ∈ l1, c ≠ '.') :
    findDotIdx (l1 ++ '.' :: l2) = some l1.length := by
  induction l1 with
  | nil => simp [findDotIdx]
  | cons c cs ih =>
    rw [List.cons_append, findDotIdx, if_neg (h c (List.mem_cons_self c cs)),
      ih (fun c hc => h c (List.mem_cons_of_mem _ hc))]
    rfl

theorem fromChars_nodot (L : List Nat) (hne : L ≠ []) (hlt : ∀ d ∈ L, d < 10) :
    fromChars (L.map digitChar)
      = some ⟨((Nat.ofDigits 10 L.reverse : Nat) : Int), 0⟩ := by
  rw [fromChars, findDotIdx_no_dot _ (by
      intro c hc
      rw [List.mem_map] at hc
      obtain ⟨d, hd, rfl⟩ := hc
      exact digitChar_ne_dot (hlt d hd)),
    parseInt?_digits L hne hlt]
  rfl

theorem fromChars_neg_nodot (L : List Nat) (hne : L ≠ [])
    (hlt : ∀ d ∈ L, d < 10) :
    fromChars ('-' :: L.map digitChar)
      = some ⟨-((Nat.ofDigits 10 L.reverse : Nat) : Int), 0⟩ := by
  rw [fromChars, findDotIdx_no_dot _ (by
      intro c hc
      rcases List.mem_cons.mp hc with rfl | hc
      · decide
      · rw [List.mem_map] at hc
        obtain ⟨d, hd, rfl⟩ := hc
        exact digitChar_ne_dot (hlt d hd)),
    parseInt?_neg_digits L hne hlt]
  rfl

theorem fromChars_dot (L1 L2 : List Nat) (h1 : L1 ≠ [])
    (hlt1 : ∀ d ∈ L1, d < 10) (hlt2 : ∀ d ∈ L2, d < 10) :
    fromChars (L1.map digitChar ++ '.' :: L2.map digitChar)
      = some ⟨((Nat.ofDigits 10 (L1 ++ L2).reverse : Nat) : Int), (L2.length : Int)⟩ := by
  have hdot : ∀ c ∈ L1.map digitChar, c ≠ '.' := by
    intro c hc
    rw [List.mem_map] at hc
    obtain ⟨d, hd, rfl⟩ := hc
    exact digitChar_ne_dot (hlt1 d hd)
  have hlen : (L1.map digitChar).length = L1.length := List.length_map _ _
  rw [fromChars, findDotIdx_append_dot _ _ hdot]
  dsimp only
  have htake : (L1.map digitChar ++ '.' :: L2.map digitChar).take (L1.map digitChar).length
      = L1.map digitChar := List.take_left _ _
  have hdrop : (L1.map digitChar ++ '.' :: L2.map digitChar).drop ((L1.map digitChar).length + 1)
      = L2.map digitChar := by
    have heq : L1.map digitChar ++ '.' :: L2.map digitChar
        = (L1.map digitChar ++ ['.']) ++ L2.map digitChar := by simp
    have hlen2 : (L1.map digitChar ++ ['.']).length = (L1.map digitChar).length + 1 := by simp
    rw [heq, ← hlen2]
    exact List.drop_left _ _
  rw [htake, hdrop, ← List.map_append, parseInt?_digits (L1 ++ L2)
    (by simp [h1]) (by intro d hd; rcases List.mem_append.mp hd with hd | hd
                       exacts [hlt1 d hd, hlt2 d hd])]
  have hscale : (L1.map digitChar ++ '.' :: L2.map digitChar).length
      - ((L1.map digitChar).length + 1) = L2.length := by
    simp
    omega
  rw [Option.map_some']
  congr 1
  rw [hscale]

theorem fromChars_neg_dot (L1 L2 : List Nat) (h1 : L1 ≠ [])
    (hlt1 : ∀ d ∈ L1, d < 10) (hlt2 : ∀ d ∈ L2, d < 10) :
    fromChars ('-' :: (L1.map digitChar ++ '.' :: L2.map digitChar))
      = some ⟨-((Nat.ofDigits 10 (L1 ++ L2).reverse : Nat) : Int), (L2.length : Int)⟩ := by
  have hdot : ∀ c ∈ L1.map digitChar, c ≠ '.' := by
    intro c hc
    rw [List.mem_map] at hc
    obtain ⟨d, hd, rfl⟩ := hc
    exact digitChar_ne_dot (hlt1 d hd)
  have hfind : findDotIdx ('-' :: (L1.map digitChar ++ '.' :: L2.map digitChar))
      = some ((L1.map digitChar).length + 1) := by
    rw [findDotIdx, if_neg (by decide), findDotIdx_append_dot _ _ hdot]
    rfl
  rw [fromChars, hfind]
  dsimp only
  have htake : ('-' :: (L1.map digitChar ++ '.' :: L2.map digitChar)).take
      ((L1.map digitChar).length + 1) = '-' :: L1.map digitChar := by
    rw [List.take_succ_cons, List.take_left]
  have hdrop : ('-' :: (L1.map digitChar ++ '.' :: L2.map digitChar)).drop
      (((L1.map digitChar).length + 1) + 1) = L2.map digitChar := by
    rw [List.drop_succ_cons]
    have : L1.map digitChar ++ '.' :: L2.map digitChar
        = (L1.map digitChar ++ ['.']) ++ L2.map digitChar := by simp
    rw [this]
    have hlen2 : (L1.map digitChar ++ ['.']).length = (L1.map digitChar).length + 1 := by simp
    rw [← hlen2]
    exact List.drop_left _ _
  rw [htake, hdrop]
  have hjoin : ('-' :: L1.map digitChar) ++ L2.map digitChar
      = '-' :: (L1 ++ L2).map digitChar := by simp
  rw [hjoin, parseInt?_neg_digits (L1 ++ L2)
    (by simp [h1]) (by intro d hd; rcases List.mem_append.mp hd with hd | hd
                       exacts [hlt1 d hd, hlt2 d hd])]
  have hscale : ('-' :: (L1.map digitChar ++ '.' :: L2.map digitChar)).length
      - (((L1.map digitChar).length + 1) + 1) = L2.length := by
    simp
    omega
  rw [Option.map_some']
  congr 1
  rw [hscale]

theorem toChars_caseA {iv sc : Int}
    (h : ((natDigitsBE iv.natAbs).length : Int) ≤ sc) :
    BigDecimal.toChars ⟨iv, sc⟩
      = (if iv < 0 then
          '-' :: ('0' :: '.' ::
            (List.replicate (sc - ((natDigitsBE iv.natAbs).length : Int)).toNat '0'
              ++ (natDigitsBE iv.natAbs).map digitChar))
        else
          '0' :: '.' ::
            (List.replicate (sc - ((natDigitsBE iv.natAbs).length : Int)).toNat '0'
              ++ (natDigitsBE iv.natAbs).map digitChar)) := by
  simp only [BigDecimal.toChars, natToDigitString, List.length_map]
  rw [if_pos h]

theorem toChars_caseB {iv sc : Int}
    (hA : ¬ ((natDigitsBE iv.natAbs).length : Int) ≤ sc)
    (hB : ((natDigitsBE iv.natAbs).length : Int)
        < ((natDigitsBE iv.natAbs).length : Int) - sc) :
    BigDecimal.toChars ⟨iv, sc⟩
      = (if iv < 0 then
          '-' :: ((natDigitsBE iv.natAbs).map digitChar
            ++ List.replicate ((((natDigitsBE iv.natAbs).length : Int) - sc).toNat
                - (natDigitsBE iv.natAbs).length) '0')
        else
          (natDigitsBE iv.natAbs).map digitChar
            ++ List.replicate ((((natDigitsBE iv.natAbs).length : Int) - sc).toNat
                - (natDigitsBE iv.natAbs).length) '0') := by
  simp only [BigDecimal.toChars, natToDigitString, List.length_map]
  rw [if_neg hA, if_pos hB]

theorem toChars_caseC {iv sc : Int}
    (hA : ¬ ((natDigitsBE iv.natAbs).length : Int) ≤ sc)
    (hB : ¬ ((natDigitsBE iv.natAbs).length : Int)
        < ((natDigitsBE iv.natAbs).length : Int) - sc) :
    BigDecimal.toChars ⟨iv, sc⟩
      = (if iv < 0 then
          '-' ::
            (if ((natDigitsBE iv.natAbs).map digitChar).drop
                (((natDigitsBE iv.natAbs).length : Int) - sc).toNat = [] then
              ((natDigitsBE iv.natAbs).map digitChar).take
                (((natDigitsBE iv.natAbs).length : Int) - sc).toNat
            else
              ((natDigitsBE iv.natAbs).map digitChar).take
                  (((natDigitsBE iv.natAbs).length : Int) - sc).toNat
                ++ '.' :: ((natDigitsBE iv.natAbs).map digitChar).drop
                  (((natDigitsBE iv.natAbs).length : Int) - sc).toNat)
        else
          (if ((natDigitsBE iv.natAbs).map digitChar).drop
              (((natDigitsBE iv.natAbs).length : Int) - sc).toNat = [] then
            ((natDigitsBE iv.natAbs).map digitChar).take
              (((natDigitsBE iv.natAbs).length : Int) - sc).toNat
          else
            ((natDigitsBE iv.natAbs).map digitChar).take
                (((natDigitsBE iv.natAbs).length : Int) - sc).toNat
              ++ '.' :: ((natDigitsBE iv.natAbs).map digitChar).drop
                (((natDigitsBE iv.natAbs).length : Int) - sc).toNat)) := by
  simp only [BigDecimal.toChars, natToDigitString, List.length_map]
  rw [if_neg hA, if_neg hB]


theorem digitChar_zero : digitChar 0 = '0' := by decide

theorem fromChars_toChars (d : BigDecimal) :
    ∃ e, fromChars d.toChars = some e ∧ e.val = d.val := by
  obtain ⟨iv, sc⟩ := d
  have hLne : natDigitsBE iv.natAbs ≠ [] := natDigitsBE_ne_nil _
  have hLlt : ∀ x ∈ natDigitsBE iv.natAbs, x < 10 := natDigitsBE_lt _
  have hofd : Nat.ofDigits 10 (natDigitsBE iv.natAbs).reverse = iv.natAbs :=
    ofDigits_natDigitsBE _
  have hlen1 : 0 < (natDigitsBE iv.natAbs).length := List.length_pos.mpr hLne
  by_cases hA : ((natDigitsBE iv.natAbs).length : Int) ≤ sc
  · -- the number lies entirely behind the decimal point
    rw [toChars_caseA hA]
    have hframe : '0' :: '.' ::
        (List.replicate (sc - ((natDigitsBE iv.natAbs).length : Int)).toNat '0'
          ++ (natDigitsBE iv.natAbs).map digitChar)
        = (([0] : List Nat).map digitChar) ++ '.' ::
          ((List.replicate (sc - ((natDigitsBE iv.natAbs).length : Int)).toNat 0
            ++ natDigitsBE iv.natAbs).map digitChar) := by
      simp [List.map_append, List.map_replicate, digitChar_zero]
    have hlt2 : ∀ x ∈ List.replicate (sc - ((natDigitsBE iv.natAbs).length : Int)).toNat 0
        ++ natDigitsBE iv.natAbs, x < 10 := by
      intro x hx
      rcases List.mem_append.mp hx with hx | hx
      · rw [List.eq_of_mem_replicate hx]; norm_num
      · exact hLlt x hx
    have hv : Nat.ofDigits 10 ((([0] : List Nat)
        ++ (List.replicate (sc - ((natDigitsBE iv.natAbs).length : Int)).toNat 0
          ++ natDigitsBE iv.natAbs)).reverse) = iv.natAbs := by
      have h1 : ([0] : List Nat)
          ++ (List.replicate (sc - ((natDigitsBE iv.natAbs).length : Int)).toNat 0
            ++ natDigitsBE iv.natAbs)
          = List.replicate ((sc - ((natDigitsBE iv.natAbs).length : Int)).toNat + 1) 0
            ++ natDigitsBE iv.natAbs := by
        simp [List.replicate_succ]
      rw [h1, List.reverse_append, List.reverse_replicate, ofDigits_append_zeros, hofd]
    have hs : (((List.replicate (sc - ((natDigitsBE iv.natAbs).length : Int)).toNat 0
        ++ natDigitsBE iv.natAbs).length : Nat) : Int) = sc := by
      rw [List.length_append, List.length_replicate]
      omega
    by_cases hneg : iv < 0
    · rw [if_pos hneg, hframe,
        fromChars_neg_dot [0] _ (by simp) (by intro x hx; simp at hx; omega) hlt2]
      refine ⟨_, rfl, ?_⟩
      simp only [BigDecimal.val]
      rw [hv, hs]
      have hiv : ((iv.natAbs : Nat) : Int) = -iv := by omega
      rw [hiv, neg_neg]
    · rw [if_neg hneg, hframe,
        fromChars_dot [0] _ (by simp) (by intro x hx; simp at hx; omega) hlt2]
      refine ⟨_, rfl, ?_⟩
      simp only [BigDecimal.val]
      rw [hv, hs]
      have hiv : ((iv.natAbs : Nat) : Int) = iv := by omega
      rw [hiv]
  · by_cases hB : ((natDigitsBE iv.natAbs).length : Int)
        < ((natDigitsBE iv.natAbs).length : Int) - sc
    · -- negative scale: zeros are appended and there is no decimal point
      rw [toChars_caseB hA hB]
      have hframe : (natDigitsBE iv.natAbs).map digitChar
          ++ List.replicate ((((natDigitsBE iv.natAbs).length : Int) - sc).toNat
              - (natDigitsBE iv.natAbs).length) '0'
          = ((natDigitsBE iv.natAbs)
              ++ List.replicate ((((natDigitsBE iv.natAbs).length : Int) - sc).toNat
                - (natDigitsBE iv.natAbs).length) 0).map digitChar := by
        simp [List.map_append, List.map_replicate, digitChar_zero]
      have hne2 : (natDigitsBE iv.natAbs)
          ++ List.replicate ((((natDigitsBE iv.natAbs).length : Int) - sc).toNat
            - (natDigitsBE iv.natAbs).length) 0 ≠ [] := by
        simp [hLne]
      have hlt2 : ∀ x ∈ (natDigitsBE iv.natAbs)
          ++ List.replicate ((((natDigitsBE iv.natAbs).length : Int) - sc).toNat
            - (natDigitsBE iv.natAbs).length) 0, x < 10 := by
        intro x hx
        rcases List.mem_append.mp hx with hx | hx
        · exact hLlt x hx
        · rw [List.eq_of_mem_replicate hx]; norm_num
      have hv : Nat.ofDigits 10 (((natDigitsBE iv.natAbs)
          ++ List.replicate ((((natDigitsBE iv.natAbs).length : Int) - sc).toNat
            - (natDigitsBE iv.natAbs).length) 0).reverse)
          = 10 ^ ((((natDigitsBE iv.natAbs).length : Int) - sc).toNat
              - (natDigitsBE iv.natAbs).length) * iv.natAbs := by
        rw [List.reverse_append, List.reverse_replicate, ofDigits_zeros_append, hofd]
      have hk : ((((((natDigitsBE iv.natAbs).length : Int) - sc).toNat
          - (natDigitsBE iv.natAbs).length : Nat)) : Int) = -sc := by omega
      by_cases hneg : iv < 0
      · rw [if_pos hneg, hframe, fromChars_neg_nodot _ hne2 hlt2]
        refine ⟨_, rfl, ?_⟩
        simp only [BigDecimal.val]
        rw [hv]
        have hiv : ((iv.natAbs : Nat) : Int) = -iv := by omega
        simp only [neg_zero, zpow_zero, mul_one]
        rw [← hk, zpow_natCast]
        push_cast [hiv]
        ring
      · rw [if_neg hneg, hframe, fromChars_nodot _ hne2 hlt2]
        refine ⟨_, rfl, ?_⟩
        simp only [BigDecimal.val]
        rw [hv]
        have hiv : ((iv.natAbs : Nat) : Int) = iv := by omega
        simp only [neg_zero, zpow_zero, mul_one]
        rw [← hk, zpow_natCast]
        push_cast [hiv]
        ring
    · -- the decimal point falls inside (or right after) the digits
      have hscnn : 0 ≤ sc := by omega
      have hsclt : sc < ((natDigitsBE iv.natAbs).length : Int) := by omega
      rw [toChars_caseC hA hB]
      by_cases hz : sc = 0
      · have hj : ((((natDigitsBE iv.natAbs).length : Int) - sc).toNat)
            = (natDigitsBE iv.natAbs).length := by omega
        have hdrop : ((natDigitsBE iv.natAbs).map digitChar).drop
            ((((natDigitsBE iv.natAbs).length : Int) - sc).toNat) = [] := by
          rw [hj]
          have h0 := List.drop_length ((natDigitsBE iv.natAbs).map digitChar)
          rw [List.length_map] at h0
          exact h0
        have htake : ((natDigitsBE iv.natAbs).map digitChar).take
            ((((natDigitsBE iv.natAbs).length : Int) - sc).toNat)
            = (natDigitsBE iv.natAbs).map digitChar := by
          rw [hj]
          have h0 := List.take_length ((natDigitsBE iv.natAbs).map digitChar)
          rw [List.length_map] at h0
          exact h0
        rw [if_pos hdrop, htake]
        by_cases hneg : iv < 0
        · rw [if_pos hneg, fromChars_neg_nodot _ hLne hLlt]
          refine ⟨_, rfl, ?_⟩
          simp only [BigDecimal.val]
          rw [hofd, hz]
          have hiv : ((iv.natAbs : Nat) : Int) = -iv := by omega
          rw [hiv, neg_neg]
        · rw [if_neg hneg, fromChars_nodot _ hLne hLlt]
          refine ⟨_, rfl, ?_⟩
          simp only [BigDecimal.val]
          rw [hofd, hz]
          have hiv : ((iv.natAbs : Nat) : Int) = iv := by omega
          rw [hiv]
      · -- a genuine fractional part: 0 < sc < digit count
        have hdropne : ((natDigitsBE iv.natAbs).map digitChar).drop
            ((((natDigitsBE iv.natAbs).length : Int) - sc).toNat) ≠ [] := by
          apply List.ne_nil_of_length_pos
          rw [List.length_drop, List.length_map]
          omega
        rw [if_neg hdropne]
        have htk : ((natDigitsBE iv.natAbs).map digitChar).take
            ((((natDigitsBE iv.natAbs).length : Int) - sc).toNat)
            = ((natDigitsBE iv.natAbs).take
                ((((natDigitsBE iv.natAbs).length : Int) - sc).toNat)).map digitChar :=
          (List.map_take _ _ _).symm
        have hdr : ((natDigitsBE iv.natAbs).map digitChar).drop
            ((((natDigitsBE iv.natAbs).length : Int) - sc).toNat)
            = ((natDigitsBE iv.natAbs).drop
                ((((natDigitsBE iv.natAbs).length : Int) - sc).toNat)).map digitChar :=
          (List.map_drop _ _ _).symm
        rw [htk, hdr]
        have htne : (natDigitsBE iv.natAbs).take
            ((((natDigitsBE iv.natAbs).length : Int) - sc).toNat) ≠ [] := by
          apply List.ne_nil_of_length_pos
          rw [List.length_take]
          omega
        have hlt1 : ∀ x ∈ (natDigitsBE iv.natAbs).take
            ((((natDigitsBE iv.natAbs).length : Int) - sc).toNat), x < 10 :=
          fun x hx => hLlt x (List.take_subset _ _ hx)
        have hlt2 : ∀ x ∈ (natDigitsBE iv.natAbs).drop
            ((((natDigitsBE iv.natAbs).length : Int) - sc).toNat), x < 10 :=
          fun x hx => hLlt x (List.drop_subset _ _ hx)
        have hv : Nat.ofDigits 10 (((natDigitsBE iv.natAbs).take
              ((((natDigitsBE iv.natAbs).length : Int) - sc).toNat)
            ++ (natDigitsBE iv.natAbs).drop
              ((((natDigitsBE iv.natAbs).length : Int) - sc).toNat)).reverse)
            = iv.natAbs := by
          rw [List.take_append_drop, hofd]
        have hs : ((((natDigitsBE iv.natAbs).drop
            ((((natDigitsBE iv.natAbs).length : Int) - sc).toNat)).length : Nat) : Int)
            = sc := by
          rw [List.length_drop]
          omega
        by_cases hneg : iv < 0
        · rw [if_pos hneg, fromChars_neg_dot _ _ htne hlt1 hlt2]
          refine ⟨_, rfl, ?_⟩
          simp only [BigDecimal.val]
          rw [hv, hs]
          have hiv : ((iv.natAbs : Nat) : Int) = -iv := by omega
          rw [hiv, neg_neg]
        · rw [if_neg hneg, fromChars_dot _ _ htne hlt1 hlt2]
          refine ⟨_, rfl, ?_⟩
          simp only [BigDecimal.val]
          rw [hv, hs]
          have hiv : ((iv.natAbs : Nat) : Int) = iv := by omega
          rw [hiv]

/-! ## Spec-side selectors used to state the claims -/

/-- The top-level tag key a clause variant serializes under. -/
def QueryClause.tagKey : QueryClause → String
  | QueryClause.Match _ _ => "match"
  | QueryClause.Range _ _ _ => "range"
  | QueryClause.Terms _ _ => "terms"
  | QueryClause.Prefix _ _ _ => "prefix"

/-- The field path of a clause. -/
def QueryClause.fieldPath : QueryClause → String
  | QueryClause.Match field _ => field
  | QueryClause.Range field _ _ => field
  | QueryClause.Terms field _ => field
  | QueryClause.Prefix field _ _ => field

/-- The `gte` bound of a `Range` clause, if the clause is a `Range`. -/
def rangeGte : QueryClause → Option BigDecimal
  | QueryClause.Range _ gte _ => some gte
  | _ => none

/-- The `lte` bound of a `Range` clause, if the clause is a `Range`. -/
def rangeLte : QueryClause → Option BigDecimal
  | QueryClause.Range _ _ lte => some lte
  | _ => none

/-- Unfolding the extractor's fold with an arbitrary accumulator: the result
is the accumulator followed by the clauses of the present annotated fields in
declaration order. -/
theorem to_clauses_foldl_acc {α : Type} (toClause : α → String → QueryClause)
    (fields : List (CriteriaField α)) (acc : List QueryClause) :
    fields.foldl
        (fun clauses f =>
          match f.searchField, f.value with
          | some path, some criteria_value => clauses ++ [toClause criteria_value path]
          | _, _ => clauses)
        acc
      = acc ++ fields.filterMap (fun f =>
          match f.searchField, f.value with
          | some path, some criteria_value => some (toClause criteria_value path)
          | _, _ => none) := by
  induction fields generalizing acc with
  | nil => simp
  | cons f fs ih =>
    cases hsf : f.searchField <;> cases hv : f.value <;>
      simp [hsf, hv, ih]

/-- Claim C1: the generated `to_clauses` returns exactly the clauses of the
present, `search_field`-annotated fields in declaration order — each present
field contributes `to_clause` at its annotated path, an absent field
contributes nothing, an unannotated field is ignored — and a record whose
fields are all absent extracts to the empty list. -/
theorem to_clauses_spec {α : Type} (toClause : α → String → QueryClause)
    (fields : List (CriteriaField α)) :
    to_clauses toClause fields
        = fields.filterMap (fun f =>
            match f.searchField, f.value with
            | some path, some criteria_value => some (toClause criteria_value path)
            | _, _ => none)
      ∧ ((∀ f ∈ fields, f.value = none) → to_clauses toClause fields = []) := by
  have h : to_clauses toClause fields
      = fields.filterMap (fun f =>
          match f.searchField, f.value with
          | some path, some criteria_value => some (toClause criteria_value path)
          | _, _ => none) := by
    have h0 := to_clauses_foldl_acc toClause fields []
    simpa using h0
  refine ⟨h, fun hnone => ?_⟩
  rw [h, List.filterMap_eq_nil_iff]
  intro f hf
  rw [hnone f hf]
  cases f.searchField <;> rfl

/-- Witness for C1 at a concrete all-absent record. -/
theorem to_clauses_spec_witness :
    to_clauses (fun (_ : Unit) path => QueryClause.Match path "x")
        [⟨some "risk_spectrum", none⟩, ⟨none, none⟩] = [] :=
  (to_clauses_spec (fun (_ : Unit) path => QueryClause.Match path "x")
      [⟨some "risk_spectrum", none⟩, ⟨none, none⟩]).2
    (by decide)

/-- Claim C2: serializing a `Range` clause yields
`{"range": {field: {"gte": s1, "lte": s2}}}` where `s1`, `s2` are the bounds'
exact decimal `Display` texts as JSON strings and `"gte"` is emitted before
`"lte"`. -/
theorem range_serialize_spec (field : String) (gte lte : BigDecimal) :
    QueryClause.serialize (QueryClause.Range field gte lte)
      = Except.ok (Json.obj [("range", Json.obj [(field,
          Json.obj [("gte", Json.str gte.toStr), ("lte", Json.str lte.toStr)])])]) := rfl

/-- Claim C3: the bounded-range criteria type always produces a `Range`
clause; an absent lower bound becomes the `i32::MIN` sentinel, an absent
upper bound the `i32::MAX` sentinel, and a present bound is used exactly. -/
theorem range_to_clause_spec (r : Range) (field : String) :
    (∃ g l, r.to_clause field = QueryClause.Range field g l)
    ∧ (r.lower_bound = none →
        rangeGte (r.to_clause field) = some (BigDecimal.fromInt i32MIN))
    ∧ (r.upper_bound = none →
        rangeLte (r.to_clause field) = some (BigDecimal.fromInt i32MAX))
    ∧ (∀ lb, r.lower_bound = some lb →
        rangeGte (r.to_clause field) = some (BigDecimal.fromInt lb))
    ∧ (∀ ub, r.upper_bound = some ub →
        rangeLte (r.to_clause field) = some (BigDecimal.fromInt ub)) := by
  obtain ⟨lo, hi⟩ := r
  refine ⟨⟨_, _, rfl⟩, ?_, ?_, ?_, ?_⟩ <;>
    cases lo <;> cases hi <;> simp [Range.to_clause, rangeGte, rangeLte]

/-- Witness for C3: sentinel substitution at concrete half-open ranges. -/
theorem range_to_clause_spec_witness :
    rangeGte (Range.to_clause ⟨none, some 5⟩ "risk_spectrum")
        = some (BigDecimal.fromInt i32MIN)
    ∧ rangeLte (Range.to_clause ⟨some 1, none⟩ "risk_spectrum")
        = some (BigDecimal.fromInt i32MAX) :=
  ⟨(range_to_clause_spec ⟨none, some 5⟩ "risk_spectrum").2.1 rfl,
   (range_to_clause_spec ⟨some 1, none⟩ "risk_spectrum").2.2.1 rfl⟩

/-- Claim C4: clause serialization is total — for every `QueryClause`,
including clauses with an empty field path and `Range` clauses with
`gte > lte` (neither of which the core detects or rejects), `serialize`
returns a JSON value and never an error; the embedding is a pure function,
so the clause value itself is unchanged. -/
theorem serialize_total (q : QueryClause) :
    ∃ j, QueryClause.serialize q = Except.ok j := by
  cases q <;> exact ⟨_, rfl⟩

/-- Claim C5: decimal fidelity — the texts emitted for the bounds of a
`Range` clause are their exact decimal representations: parsing an emitted
text back to a `BigDecimal` succeeds and yields a value whose exact rational
value equals the original bound's, for bounds of any precision. -/
theorem decimal_fidelity (f : String) (g l : BigDecimal) :
    ∃ jg jl, QueryClause.serialize (QueryClause.Range f g l)
        = Except.ok (Json.obj [("range", Json.obj [(f,
            Json.obj [("gte", Json.str jg), ("lte", Json.str jl)])])])
      ∧ (∃ g2, BigDecimal.fromStr jg = some g2 ∧ g2.val = g.val)
      ∧ (∃ l2, BigDecimal.fromStr jl = some l2 ∧ l2.val = l.val) := by
  exact ⟨g.toStr, l.toStr, rfl, fromChars_toChars g, fromChars_toChars l⟩

/-- Claim C6: serializing a `Terms` clause yields `{"terms": {field: [...]}}`
with the values in exactly the caller-supplied order — not deduplicated, not
sorted — including the empty list and lists with duplicates. -/
theorem terms_serialize_spec (field : String) (values : List String) :
    QueryClause.serialize (QueryClause.Terms field values)
      = Except.ok (Json.obj [("terms", Json.obj [(field,
          Json.arr (values.map Json.str))])]) := rfl

/-- Claim C7: serializing a `Prefix` clause yields
`{"prefix": {field: {"value": v, "case_insensitive": b}}}` with `"value"`
emitted before `"case_insensitive"`. -/
theorem clausePrefix_serialize_spec (field value : String) (flag : Bool) :
    QueryClause.serialize (QueryClause.Prefix field value flag)
      = Except.ok (Json.obj [("prefix", Json.obj [(field,
          Json.obj [("value", Json.str value), ("case_insensitive", Json.bool flag)])])]) :=
  rfl

/-- Claim C8: serializing a `QuerySort` yields a single-entry object mapping
the field to `"asc"` for ascending and `"desc"` for descending. -/
theorem querySort_serialize_spec (s : QuerySort) :
    QuerySort.serialize s
      = Except.ok (Json.obj [(s.field_name,
          Json.str (match s.ordering with
            | SortType.Asc => "asc"
            | SortType.Desc => "desc"))]) := by
  obtain ⟨f, o⟩ := s
  cases o <;> rfl

/-- Claim C9: every serialized clause is an object with exactly one top-level
key — the variant's tag key — whose value is an object with exactly one key,
the clause's field path; every serialized sort is an object with exactly one
key. -/
theorem serialize_singleton_shape (q : QueryClause) (s : QuerySort) :
    (∃ v, QueryClause.serialize q
        = Except.ok (Json.obj [(q.tagKey, Json.obj [(q.fieldPath, v)])]))
    ∧ ∃ v, QuerySort.serialize s = Except.ok (Json.obj [(s.field_name, v)]) := by
  refine ⟨?_, ⟨_, rfl⟩⟩
  cases q <;> exact ⟨_, rfl⟩

/-- Claim C10: the extraction function generated by the older derive macro
(binding present values by move) agrees with the one generated by the newer
macro (binding by reference) on every criteria record; the two generated
bodies differ only in the binding mode, which a value-level semantics renders
identical. -/
theorem to_clauses_old_eq_to_clauses {α : Type} (toClause : α → String → QueryClause)
    (fields : List (CriteriaField α)) :
    to_clauses_old toClause fields = to_clauses toClause fields := rfl

end ElasticsearchCommon
